import Mathlib

/-!
# Cipherpack core codec — verification development

Shallow embedding of the Cipherpack core codec
(`Cipherpack::encryptThenSign_RSA1` and `Cipherpack::checkSignThenDecrypt_RSA1`
in `src/elevator/Crypto1.cpp`).

Modelling conventions:

* Bytes are `List Nat` (each entry a byte value); file paths are byte lists.
* The filesystem is an association list from paths to contents; the
  `std::ofstream` open (binary, truncate) of the output file is modelled as
  installing an empty binding, `IOUtil::remove` as deleting the binding.
* The external cryptographic primitive library (Botan: AEAD, RSA wrap and
  signatures, RNG, OID registry) is out of scope per the specification and is
  modelled as a bundle of abstract functions (`Prims`); theorems assume only
  the standard contracts of those primitives at the points where the code
  relies on them, and witnesses instantiate the bundle with small concrete
  executable primitives.
* The DER layer (Botan `DER_Encoder` / `BER_Decoder`) is modelled concretely:
  definite-length tag-length-value encoding exactly as the code emits it
  (OCTET STRING, INTEGER, OID, SEQUENCE, AlgorithmIdentifier with raw
  parameter bytes).  The header encoder of the pipeline is additionally kept
  parametric in the encoding function (as the C++ is parametric over Botan's
  encoder object) so that statements about the two-pass size fixed point can
  be settled without assuming properties of the encoder.
-/

/-! ## Bytes and filesystem -/

abbrev Bytes := List Nat

abbrev FPath := List Nat

/-- Filesystem: association list from paths to file contents. -/
abbrev FS := List (FPath × Bytes)

namespace FS

/-- Content of a file, if present. -/
def lookup (p : FPath) : FS → Option Bytes
  | [] => none
  | (q, v) :: rest => if q = p then some v else lookup p rest

/-- `IOUtil::file_exists`. -/
def fileExists (p : FPath) (fs : FS) : Bool :=
  (lookup p fs).isSome

/-- `IOUtil::remove`: drop the binding for `p`. -/
def remove (p : FPath) : FS → FS
  | [] => []
  | (q, v) :: rest => if q = p then remove p rest else (q, v) :: remove p rest

/-- Create or overwrite `p` with content `v` (truncating open + writes). -/
def put (p : FPath) (v : Bytes) (fs : FS) : FS :=
  (p, v) :: remove p fs

theorem lookup_remove_self (p : FPath) (fs : FS) : lookup p (remove p fs) = none := by
  induction fs with
  | nil => rfl
  | cons h t ih =>
    obtain ⟨q, v⟩ := h
    by_cases hq : q = p
    · simp [remove, hq, ih]
    · simp [remove, lookup, hq, ih]

theorem lookup_put_self (p : FPath) (v : Bytes) (fs : FS) :
    lookup p (put p v fs) = some v := by
  simp [put, lookup]

end FS

/-! ## Byte-level helpers (`jau::put_uint32` / `jau::get_uint32`, little-endian) -/

/-- `jau::put_uint32(.., littleEndian=true)` into a 4-byte buffer. -/
def putU32LE (n : Nat) : Bytes :=
  [n % 256, n / 256 % 256, n / 65536 % 256, n / 16777216 % 256]

/-- `jau::get_uint32(.., littleEndian=true)` from a 4-byte buffer. -/
def getU32LE (b : Bytes) : Nat :=
  b.getD 0 0 + 256 * (b.getD 1 0 + 256 * (b.getD 2 0 + 256 * b.getD 3 0))

theorem putU32LE_length (n : Nat) : (putU32LE n).length = 4 := rfl

theorem getU32LE_putU32LE (n : Nat) : getU32LE (putU32LE n) = n % 4294967296 := by
  show n % 256 + 256 * (n / 256 % 256 + 256 * (n / 65536 % 256 + 256 * (n / 16777216 % 256)))
      = n % 4294967296
  omega

/-! ## DER layer

Concrete model of the definite-length DER tag-length-value encoding produced
by Botan's `DER_Encoder` and consumed by `BER_Decoder`, restricted to the
forms the code uses. -/

/-- Minimal big-endian base-256 digits of `n` (empty for `0`).
Structural recursion on a fuel argument so the definition reduces in the
kernel; `beBytes` supplies fuel `n`, which always suffices. -/
def beBytesAux : Nat → Nat → List Nat
  | _, 0 => []
  | 0, _ + 1 => []
  | fuel + 1, n + 1 => beBytesAux fuel ((n + 1) / 256) ++ [(n + 1) % 256]

/-- Minimal big-endian base-256 digits of `n`. -/
def beBytes (n : Nat) : List Nat := beBytesAux n n

/-- Big-endian value of a digit list. -/
def beVal (l : List Nat) : Nat := l.foldl (fun a b => a * 256 + b) 0

/-- DER definite length field for content length `n`:
short form below 128, long form `0x80+k` followed by `k` big-endian bytes. -/
def derLen (n : Nat) : List Nat :=
  if n < 128 then [n] else (128 + (beBytes n).length) :: beBytes n

/-- One DER tag-length-value element. -/
def derTLV (tag : Nat) (content : Bytes) : Bytes :=
  tag :: derLen content.length ++ content

/-- DER SEQUENCE (constructed, tag `0x30`). -/
def encSeq (content : Bytes) : Bytes := derTLV 48 content

/-- DER content bytes of an unsigned INTEGER (`Botan::ASN1_Type::Integer`
encoding of a `uint64_t`): minimal big-endian with a leading zero byte when
the top bit would be set. -/
def intContent (n : Nat) : Bytes :=
  if n = 0 then [0]
  else if 128 ≤ (beBytes n).headD 0 then 0 :: beBytes n else beBytes n

/-- DER INTEGER element for an unsigned value. -/
def encInt (n : Nat) : Bytes := derTLV 2 (intContent n)

/-! ### Decoder -/

/-- Split off the first `n` bytes, failing when fewer are available. -/
def splitOff (n : Nat) (l : Bytes) : Option (Bytes × Bytes) :=
  if n ≤ l.length then some (l.take n, l.drop n) else none

/-- Read a DER definite length field. -/
def readLen : Bytes → Option (Nat × Bytes)
  | [] => none
  | b :: r =>
    if b < 128 then some (b, r)
    else if b = 128 then none
    else (splitOff (b - 128) r).map (fun p => (beVal p.1, p.2))

/-- Read one tag-length-value element with the expected tag, returning its
content and the unconsumed tail. -/
def readTLV (tag : Nat) : Bytes → Option (Bytes × Bytes)
  | [] => none
  | t :: r =>
    if t = tag then
      match readLen r with
      | none => none
      | some (n, r2) => splitOff n r2
    else none

/-! ### Round-trip lemmas for the DER layer -/

theorem splitOff_append (a b : Bytes) : splitOff a.length (a ++ b) = some (a, b) := by
  simp [splitOff, List.take_left, List.drop_left]

theorem beVal_append_singleton (l : List Nat) (b : Nat) :
    beVal (l ++ [b]) = beVal l * 256 + b := by
  simp [beVal, List.foldl_append]

theorem beBytesAux_zero (fuel : Nat) : beBytesAux fuel 0 = [] := by
  cases fuel <;> rfl

theorem beVal_beBytesAux : ∀ fuel n, n ≤ fuel → beVal (beBytesAux fuel n) = n := by
  intro fuel
  induction fuel with
  | zero =>
    intro n h
    have : n = 0 := Nat.le_zero.mp h
    subst this
    rw [beBytesAux_zero]
    rfl
  | succ f ih =>
    intro n h
    match n with
    | 0 =>
      rw [beBytesAux_zero]
      rfl
    | m + 1 =>
      have hlt : (m + 1) / 256 ≤ f := by
        have h2 : (m + 1) / 256 < m + 1 := Nat.div_lt_self (Nat.succ_pos m) (by norm_num)
        omega
      rw [beBytesAux, beVal_append_singleton, ih _ hlt]
      omega

theorem beVal_beBytes (n : Nat) : beVal (beBytes n) = n :=
  beVal_beBytesAux n n (Nat.le_refl n)

theorem beBytes_ne_nil (n : Nat) (h : 0 < n) : beBytes n ≠ [] := by
  match n, h with
  | n + 1, _ =>
    show beBytesAux (n + 1) (n + 1) ≠ []
    rw [beBytesAux]
    simp

theorem readLen_derLen (n : Nat) (r : Bytes) : readLen (derLen n ++ r) = some (n, r) := by
  by_cases h : n < 128
  · simp [derLen, readLen, h]
  · have hne : beBytes n ≠ [] := beBytes_ne_nil n (by omega)
    have hlen : 0 < (beBytes n).length := List.length_pos.mpr hne
    simp only [derLen, if_neg h, List.cons_append, readLen]
    rw [if_neg (by omega), if_neg (by omega)]
    have : 128 + (beBytes n).length - 128 = (beBytes n).length := by omega
    rw [this, splitOff_append]
    simp [beVal_beBytes]

theorem readTLV_derTLV (tag : Nat) (c : Bytes) (r : Bytes) :
    readTLV tag (derTLV tag c ++ r) = some (c, r) := by
  simp only [derTLV, List.cons_append, List.append_assoc, readTLV, if_pos rfl,
    readLen_derLen]
  exact splitOff_append c r

theorem readTLV_derTLV_nil (tag : Nat) (c : Bytes) :
    readTLV tag (derTLV tag c) = some (c, []) := by
  have := readTLV_derTLV tag c []
  simpa using this

theorem derLen_length_congr {m n : Nat} (h : m = n) :
    (derLen m).length = (derLen n).length := by rw [h]

theorem derTLV_length (tag : Nat) (c : Bytes) :
    (derTLV tag c).length = 1 + (derLen c.length).length + c.length := by
  simp [derTLV]
  omega

/-! ## Data model

`Prims` bundles the compile-time constants of the core (`package_magic`,
`rsa_sign_algo`, `rsa_padding_algo`, `rsa_hash_algo`, `aead_cipher_algo`)
and the external Botan primitives the two pipelines call: OID registry
(`OID::from_string`, `OIDS::oid2str_or_empty`), AEAD availability and key
spec, the RNG outputs drawn for one encrypt run (`file_key`, `nonce`), the
asymmetric wrap/unwrap (`PK_Encryptor_EME::encrypt`,
`PK_Decryptor_EME::decrypt_or_random`'s underlying decrypt), signing and
verification (`PK_Signer`/`PK_Verifier`), and the streaming AEAD
(modelled end-to-end: ciphertext-with-tag of the whole payload). -/

structure Prims where
  magic : Bytes
  signAlgoName : Bytes
  paddingName : Bytes
  hashName : Bytes
  aeadName : Bytes
  oidOfStr : Bytes → Bytes
  oid2str : Bytes → Bytes
  aeadAvail : Bool
  maxKeylen : Nat
  fileKey : Bytes
  nonceV : Bytes
  wrap : Bytes → Bytes
  unwrap : Bytes → Option Bytes
  sign : Bytes → Bytes
  verify : Bytes → Bytes → Bool
  aeadEnc : Bytes → Bytes → Bytes → Bytes → Bytes
  aeadDec : Bytes → Bytes → Bytes → Bytes → Option Bytes
  randomKey : Nat → Bytes

/-- Bytes of the string "RSA/". -/
def rsaSlash : Bytes := [82, 83, 65, 47]

/-- Botan `AlgorithmIdentifier`: an OID plus raw DER parameter bytes. -/
structure AlgId where
  oid : Bytes
  params : Bytes
deriving DecidableEq

/-- DER encoding of an `AlgorithmIdentifier` (`SEQUENCE { OID, raw params }`). -/
def encAlgId (a : AlgId) : Bytes := encSeq (derTLV 6 a.oid ++ a.params)

/-- The `pk_alg_id` built at encrypt time:
`AlgorithmIdentifier("RSA/"+rsa_padding_algo, hash_id.BER_encode())` with
`hash_id = AlgorithmIdentifier(rsa_hash_algo, USE_EMPTY_PARAM)`. -/
def pkAlgIdOf (P : Prims) : AlgId :=
  { oid := P.oidOfStr (rsaSlash ++ P.paddingName)
    params := encAlgId { oid := P.oidOfStr P.hashName, params := [] } }

/-- One error kind per distinct fatal `ERR_PRINT` site of the two pipelines
(`HeaderSizeMismatch` appears in the specification's error catalogue; the
code has no corresponding failure site, see the theorems on the two-pass
encoder). -/
inductive Err
  | OutputExists
  | KeyLoad
  | AeadUnavailable
  | OidMissing
  | InputRead
  | InputOpen
  | DerDecode
  | BadMagicEmpty
  | BadMagic
  | BadHeaderSize
  | ShortRead
  | SignatureMismatch
  | EmptyFilename
  | EmptySignAlgo
  | SignAlgoMismatch
  | PkAlgoMismatch
  | HashAlgoUnknown
  | HashAlgoMismatch
  | HashParamNonEmpty
  | CipherAlgoUnknown
  | CipherAlgoMismatch
  | TagMismatch
  | HeaderSizeMismatch
deriving DecidableEq, Repr

/-! ## Encrypt pipeline (`Cipherpack::encryptThenSign_RSA1`) -/

/-- DER-Header-1 with a given content of the 4-byte `header1_size` octet
string (`header1_size_buffer`), exactly the field sequence written by both
encoder passes (Crypto1.cpp lines 92-104 and 113-125):
magic, size buffer, filename, `payload_version = 1`,
`payload_version_parent = 0`, sign algo name, `pk_alg_id`,
`cipher_algo_oid`, `encrypted_key`, `nonce`, all inside one SEQUENCE. -/
def encodeHeader1With (P : Prims) (fname ek : Bytes) (szb : Bytes) : Bytes :=
  encSeq (derTLV 4 P.magic ++ derTLV 4 szb ++ derTLV 4 fname
    ++ encInt 1 ++ encInt 0
    ++ derTLV 4 P.signAlgoName ++ encAlgId (pkAlgIdOf P)
    ++ derTLV 6 (P.oidOfStr P.aeadName) ++ derTLV 4 ek ++ derTLV 4 P.nonceV)

/-- The two-pass header encode, parametric in the encoding function (the C++
is parametric over Botan's `DER_Encoder` in the same way): pass 1 encodes
with the zeroed 4-byte size buffer and measures the length, pass 2 re-encodes
with the measured length written little-endian into the buffer.  The pass-2
output is written unconditionally; the code performs no comparison of the
two lengths. -/
def twoPassEncode (enc : Bytes → Bytes) : Bytes :=
  enc (putU32LE (enc (List.replicate 4 0)).length)

/-- The final DER-Header-1 bytes written by the encrypt pipeline. -/
def encodeHeader1 (P : Prims) (fname ek : Bytes) : Bytes :=
  twoPassEncode (encodeHeader1With P fname ek)

/-- DER-Header-2: `SEQUENCE { signature OCTET STRING }`. -/
def encodeHeader2 (sig : Bytes) : Bytes := encSeq (derTLV 4 sig)

/-- The complete on-wire message produced by one encrypt run, with an
explicitly chosen `encrypted_key` carried in the header (the payload is
always encrypted with `aad = wrap file_key`, the key actually wrapped). -/
def encMessageWithEk (P : Prims) (fname ek pt : Bytes) : Bytes :=
  let h1 := twoPassEncode (encodeHeader1With P fname ek)
  h1 ++ encodeHeader2 (P.sign h1) ++ P.aeadEnc P.fileKey P.nonceV (P.wrap P.fileKey) pt

/-- The complete on-wire message of a faithful encrypt run:
`Header-1 || Header-2 || AEAD-ciphertext-with-tag`, with
`aad = encrypted_key = wrap(file_key)`. -/
def encMessage (P : Prims) (fname pt : Bytes) : Bytes :=
  encMessageWithEk P fname (P.wrap P.fileKey) pt

/-- `Cipherpack::encryptThenSign_RSA1`, with the header encoder as an
explicit parameter (`hdrEnc` maps the 4-byte size-buffer content to the full
Header-1 bytes; the pipeline instantiates it with `encodeHeader1With`).
`encKeyOk` / `signKeyOk` model whether `load_public_key` /
`load_private_key` return a key.  Returns the result of the run (the `bool`
return of the C++ together with the error site) and the final filesystem.

Error paths and cleanup follow the code exactly: the output file is created
(truncating open) before the `try` block; the null-key, null-AEAD and
empty-OID paths return `false` without `IOUtil::remove` (lines 48-65); the
input-read failure path removes the output (line 176). -/
def encryptRGen (P : Prims) (hdrEnc : Bytes → Bytes) (encKeyOk signKeyOk : Bool)
    (dataF outF : FPath) (overwrite : Bool) (fs : FS) : Except Err Bytes × FS :=
  if FS.fileExists outF fs && !overwrite then (.error .OutputExists, fs)
  else
    let fs1 := FS.put outF [] fs
    if !encKeyOk then (.error .KeyLoad, fs1)
    else if !signKeyOk then (.error .KeyLoad, fs1)
    else if !P.aeadAvail then (.error .AeadUnavailable, fs1)
    else if P.oidOfStr P.aeadName = [] then (.error .OidMissing, fs1)
    else
      match FS.lookup dataF fs1 with
      | none => (.error .InputRead, FS.remove outF fs1)
      | some pt =>
        let h1 := twoPassEncode hdrEnc
        let msg := h1 ++ encodeHeader2 (P.sign h1)
          ++ P.aeadEnc P.fileKey P.nonceV (P.wrap P.fileKey) pt
        (.ok msg, FS.put outF msg fs1)

/-- `Cipherpack::encryptThenSign_RSA1` with the DER header encoder of the
code. -/
def encryptR (P : Prims) (encKeyOk signKeyOk : Bool) (dataF outF : FPath)
    (overwrite : Bool) (fs : FS) : Except Err Bytes × FS :=
  encryptRGen P (encodeHeader1With P dataF (P.wrap P.fileKey))
    encKeyOk signKeyOk dataF outF overwrite fs

/-! ## Decrypt pipeline (`Cipherpack::checkSignThenDecrypt_RSA1`) -/

/-- The decoded Header-1 fields (Crypto1.cpp lines 245-253, 312-327). -/
structure H1 where
  magic : Bytes
  szb : Bytes
  filename : Bytes
  payloadVersion : Nat
  payloadVersionParent : Nat
  signAlgo : Bytes
  pkAlg : AlgId
  cipherOid : Bytes
  ek : Bytes
  nonce : Bytes
deriving DecidableEq

/-- BER decode of an `AlgorithmIdentifier` off the front of a byte string. -/
def parseAlgId (c : Bytes) : Option (AlgId × Bytes) :=
  match readTLV 48 c with
  | none => none
  | some (s, rest) =>
    match readTLV 6 s with
    | none => none
    | some (o, ps) => some ({ oid := o, params := ps }, rest)

/-- Full BER decode of Header-1 from the retained byte image (lines 312-327).
The trailing `end_cons` requires the SEQUENCE content to be fully consumed. -/
def parseHeader1 (buf : Bytes) : Option H1 :=
  match readTLV 48 buf with
  | none => none
  | some (c, _) =>
    match readTLV 4 c with
    | none => none
    | some (magic, c) =>
      match readTLV 4 c with
      | none => none
      | some (szb, c) =>
        match readTLV 4 c with
        | none => none
        | some (fname, c) =>
          match readTLV 2 c with
          | none => none
          | some (v, c) =>
            match readTLV 2 c with
            | none => none
            | some (vp, c) =>
              match readTLV 4 c with
              | none => none
              | some (sa, c) =>
                match parseAlgId c with
                | none => none
                | some (pk, c) =>
                  match readTLV 6 c with
                  | none => none
                  | some (co, c) =>
                    match readTLV 4 c with
                    | none => none
                    | some (ek, c) =>
                      match readTLV 4 c with
                      | none => none
                      | some (nonce, c) =>
                        if c = [] then
                          some { magic := magic, szb := szb, filename := fname,
                                 payloadVersion := beVal v,
                                 payloadVersionParent := beVal vp,
                                 signAlgo := sa, pkAlg := pk, cipherOid := co,
                                 ek := ek, nonce := nonce }
                        else none

/-- BER decode of Header-2 from the stream right after the Header-1 image
(lines 328-335): `SEQUENCE { signature OCTET STRING }` with no `end_cons`;
the encrypted payload follows the sequence. -/
def parseHeader2 (after : Bytes) : Option (Bytes × Bytes) :=
  match readTLV 48 after with
  | none => none
  | some (c, rest) =>
    match readTLV 4 c with
    | none => none
    | some (sig, _) => some (sig, rest)

/-- Phase-A snoop (lines 256-291): open a BER decoder on the input and decode
only `package_magic` and `header1_size_buffer`. -/
def snoop (input : Bytes) : Option (Bytes × Bytes) :=
  match readTLV 48 input with
  | none => none
  | some (c, _) =>
    match readTLV 4 c with
    | none => none
    | some (magic, c2) =>
      match readTLV 4 c2 with
      | none => none
      | some (szb, _) => some (magic, szb)

/-- The header phase of the decrypt pipeline: snoop, magic and size-field
validation, phase-B full read of the Header-1 byte image, Header-2 decode,
and signature verification over the exact retained image (lines 255-354).
Returns the decoded fields, the Header-1 byte image, the signature and the
remaining (payload) bytes. -/
def decryptParse (P : Prims) (input : Bytes) : Except Err (H1 × Bytes × Bytes × Bytes) :=
  match snoop input with
  | none => .error .DerDecode
  | some (m, szb) =>
    if m = [] then .error .BadMagicEmpty
    else if m ≠ P.magic then .error .BadMagic
    else if szb.length ≠ 4 then .error .BadHeaderSize
    else if input.length < getU32LE szb then .error .ShortRead
    else
      match parseHeader1 (input.take (getU32LE szb)) with
      | none => .error .DerDecode
      | some h1 =>
        match parseHeader2 (input.drop (getU32LE szb)) with
        | none => .error .DerDecode
        | some (sig, ct) =>
          if P.verify sig (input.take (getU32LE szb)) then
            .ok (h1, input.take (getU32LE szb), sig, ct)
          else .error .SignatureMismatch

/-- Header field validation after signature verification (lines 356-436):
non-empty filename, non-empty and expected sign algo, `pk_alg_id` resolving
to `RSA/<padding>`, nested hash algorithm identifier resolving to the
expected hash with empty parameters, `cipher_algo_oid` resolving to the
expected AEAD name. -/
def validateH1 (P : Prims) (h1 : H1) : Except Err Unit :=
  if h1.filename = [] then .error .EmptyFilename
  else if h1.signAlgo = [] then .error .EmptySignAlgo
  else if h1.signAlgo ≠ P.signAlgoName then .error .SignAlgoMismatch
  else if P.oid2str h1.pkAlg.oid ≠ rsaSlash ++ P.paddingName then .error .PkAlgoMismatch
  else
    match parseAlgId h1.pkAlg.params with
    | none => .error .DerDecode
    | some (hashId, _) =>
      if P.oid2str hashId.oid = [] then .error .HashAlgoUnknown
      else if P.oid2str hashId.oid ≠ P.hashName then .error .HashAlgoMismatch
      else if hashId.params ≠ [] then .error .HashParamNonEmpty
      else if P.oid2str h1.cipherOid = [] then .error .CipherAlgoUnknown
      else if P.oid2str h1.cipherOid ≠ P.aeadName then .error .CipherAlgoMismatch
      else .ok ()

/-- `PK_Decryptor_EME::decrypt_or_random(encrypted_key, expected_keylen, rng)`
(lines 444-449): on unwrap failure, or an unwrapped key of unexpected
length, a random key of `expected_keylen = aead->key_spec().maximum_keylength()`
bytes is substituted. -/
def decryptOrRandom (P : Prims) (ek : Bytes) : Bytes :=
  match P.unwrap ek with
  | some k => if k.length = P.maxKeylen then k else P.randomKey P.maxKeylen
  | none => P.randomKey P.maxKeylen

/-- The pure part of the decrypt pipeline on the input bytes: header phase,
validation, AEAD creation, key unwrap with `decrypt_or_random` semantics, and
AEAD stream decryption of the payload (tag verified at `finish`). -/
def decryptBody (P : Prims) (input : Bytes) : Except Err Bytes :=
  match decryptParse P input with
  | .error e => .error e
  | .ok (h1, _, _, ct) =>
    match validateH1 P h1 with
    | .error e => .error e
    | .ok _ =>
      if !P.aeadAvail then .error .AeadUnavailable
      else
        match P.aeadDec (decryptOrRandom P h1.ek) h1.nonce h1.ek ct with
        | none => .error .TagMismatch
        | some pt => .ok pt

/-- `Cipherpack::checkSignThenDecrypt_RSA1`.  As in the code: overwrite
guard, truncating open of the output, key loads (null return paths do not
remove the output, lines 234-241), then the body; every failure inside the
body removes the output file (explicit `IOUtil::remove` calls on the decode
and validation paths, and the outer catch for thrown errors such as
`Invalid_Authentication_Tag` and `create_or_throw`). -/
def decryptR (P : Prims) (signKeyOk decKeyOk : Bool) (inF outF : FPath)
    (overwrite : Bool) (fs : FS) : Except Err Bytes × FS :=
  if FS.fileExists outF fs && !overwrite then (.error .OutputExists, fs)
  else
    let fs1 := FS.put outF [] fs
    if !signKeyOk then (.error .KeyLoad, fs1)
    else if !decKeyOk then (.error .KeyLoad, fs1)
    else
      match FS.lookup inF fs1 with
      | none => (.error .InputOpen, FS.remove outF fs1)
      | some input =>
        match decryptBody P input with
        | .error e => (.error e, FS.remove outF fs1)
        | .ok pt => (.ok pt, FS.put outF pt fs1)

/-! ## Round-trip lemmas: parsing what the encoder wrote -/

theorem beVal_zero_cons (l : List Nat) : beVal (0 :: l) = beVal l := by
  simp [beVal]

theorem beVal_intContent (n : Nat) : beVal (intContent n) = n := by
  unfold intContent
  split
  · subst ‹n = 0›
    rfl
  · split
    · rw [beVal_zero_cons, beVal_beBytes]
    · rw [beVal_beBytes]

theorem parseAlgId_encAlgId (a : AlgId) (r : Bytes) :
    parseAlgId (encAlgId a ++ r) = some (a, r) := by
  simp [parseAlgId, encAlgId, encSeq, readTLV_derTLV, readTLV_derTLV_nil]

/-- Decoding Header-1 from the exact bytes either encoder pass produced
recovers every field. -/
theorem parseHeader1_encodeHeader1With (P : Prims) (fname ek szb : Bytes) :
    parseHeader1 (encodeHeader1With P fname ek szb) =
      some { magic := P.magic, szb := szb, filename := fname,
             payloadVersion := 1, payloadVersionParent := 0,
             signAlgo := P.signAlgoName, pkAlg := pkAlgIdOf P,
             cipherOid := P.oidOfStr P.aeadName, ek := ek, nonce := P.nonceV } := by
  simp [parseHeader1, encodeHeader1With, encSeq, encInt, readTLV_derTLV,
    readTLV_derTLV_nil, parseAlgId_encAlgId, beVal_intContent]

theorem parseHeader2_encodeHeader2 (sig ct : Bytes) :
    parseHeader2 (encodeHeader2 sig ++ ct) = some (sig, ct) := by
  simp [parseHeader2, encodeHeader2, encSeq, readTLV_derTLV, readTLV_derTLV_nil]

/-- The Header-1 byte length depends only on the length of the size-buffer
content, not on its bytes: the two-pass fixed point. -/
theorem encodeHeader1With_length (P : Prims) (fname ek : Bytes) {szb1 szb2 : Bytes}
    (h : szb1.length = szb2.length) :
    (encodeHeader1With P fname ek szb1).length
      = (encodeHeader1With P fname ek szb2).length := by
  simp only [encodeHeader1With, encSeq, derTLV_length, List.length_append]
  rw [h]

/-- `L₂ = L₁`: the final Header-1 (encoded with the measured size written
into the 4-byte buffer) has exactly the measured pass-1 length. -/
theorem encodeHeader1_length (P : Prims) (fname ek : Bytes) :
    (encodeHeader1 P fname ek).length
      = (encodeHeader1With P fname ek (List.replicate 4 0)).length := by
  unfold encodeHeader1 twoPassEncode
  exact encodeHeader1With_length P fname ek (by simp [putU32LE])

/-- The Header-1 fields decoded from a faithful encrypt run's output. -/
def decodedH1 (P : Prims) (fname ek : Bytes) : H1 :=
  { magic := P.magic
    szb := putU32LE (encodeHeader1With P fname ek (List.replicate 4 0)).length
    filename := fname
    payloadVersion := 1
    payloadVersionParent := 0
    signAlgo := P.signAlgoName
    pkAlg := pkAlgIdOf P
    cipherOid := P.oidOfStr P.aeadName
    ek := ek
    nonce := P.nonceV }

theorem snoop_encMessageWithEk (P : Prims) (fname ek pt : Bytes) :
    snoop (encMessageWithEk P fname ek pt) =
      some (P.magic,
        putU32LE (encodeHeader1With P fname ek (List.replicate 4 0)).length) := by
  simp [snoop, encMessageWithEk, twoPassEncode, encodeHeader1With, encSeq,
    List.append_assoc, readTLV_derTLV]

/-- The decrypt header phase accepts a faithful encrypt run's output and
returns the encoded fields, the exact Header-1 image, its signature and the
AEAD payload — provided the header is addressable by the 32-bit size field
and the verifier accepts the signature the encoder produced. -/
theorem decryptParse_encMessageWithEk (P : Prims) (fname ek pt : Bytes)
    (hmag : P.magic ≠ [])
    (hsz : (encodeHeader1With P fname ek (List.replicate 4 0)).length < 4294967296)
    (hver : P.verify (P.sign (encodeHeader1 P fname ek)) (encodeHeader1 P fname ek) = true) :
    decryptParse P (encMessageWithEk P fname ek pt) =
      .ok (decodedH1 P fname ek, encodeHeader1 P fname ek,
           P.sign (encodeHeader1 P fname ek),
           P.aeadEnc P.fileKey P.nonceV (P.wrap P.fileKey) pt) := by
  have hL : getU32LE (putU32LE (encodeHeader1With P fname ek (List.replicate 4 0)).length)
      = (encodeHeader1 P fname ek).length := by
    rw [getU32LE_putU32LE, encodeHeader1_length]
    exact Nat.mod_eq_of_lt hsz
  have hmsg : encMessageWithEk P fname ek pt
      = encodeHeader1 P fname ek
        ++ (encodeHeader2 (P.sign (encodeHeader1 P fname ek))
            ++ P.aeadEnc P.fileKey P.nonceV (P.wrap P.fileKey) pt) := by
    simp [encMessageWithEk, encodeHeader1, List.append_assoc]
  rw [decryptParse, snoop_encMessageWithEk]
  simp only [hL]
  rw [if_neg (by simp [hmag]), if_neg (by simp), if_neg (by simp [putU32LE])]
  rw [if_neg (by rw [hmsg]; simp)]
  rw [hmsg, List.take_left, List.drop_left]
  rw [show encodeHeader1 P fname ek
      = encodeHeader1With P fname ek
          (putU32LE (encodeHeader1With P fname ek (List.replicate 4 0)).length) from rfl]
  rw [parseHeader1_encodeHeader1With, parseHeader2_encodeHeader2]
  rw [← show encodeHeader1 P fname ek
      = encodeHeader1With P fname ek
          (putU32LE (encodeHeader1With P fname ek (List.replicate 4 0)).length) from rfl]
  simp [hver, decodedH1]

/-! ## Decidability helpers and a concrete executable primitive bundle

`toyP` instantiates the external-primitive bundle with small executable
primitives satisfying the standard contracts at the points the theorems
assume them (wrap/unwrap inverse, signature verification accepting exactly
the signed message, an AEAD whose tag check matches key, nonce and
associated data).  It exists to evaluate the pipeline theorems on concrete
inputs. -/

instance {α : Type} [DecidableEq α] : DecidableEq (Except Err α) := fun a b =>
  match a, b with
  | .ok x, .ok y =>
    if h : x = y then .isTrue (by rw [h]) else .isFalse (fun hh => h (by injection hh))
  | .ok _, .error _ => .isFalse (fun hh => Except.noConfusion hh)
  | .error _, .ok _ => .isFalse (fun hh => Except.noConfusion hh)
  | .error e, .error f =>
    if h : e = f then .isTrue (by rw [h]) else .isFalse (fun hh => h (by injection hh))

def toyP : Prims where
  magic := [90, 65, 70]
  signAlgoName := [83, 65]
  paddingName := [79]
  hashName := [72]
  aeadName := [67, 67]
  oidOfStr := fun s => 1 :: s
  oid2str := fun o => o.drop 1
  aeadAvail := true
  maxKeylen := 3
  fileKey := [7, 7, 7]
  nonceV := [1, 2]
  wrap := fun k => 9 :: k
  unwrap := fun c => if c.headD 0 = 9 then some c.tail else none
  sign := fun m => m
  verify := fun s m => s == m
  aeadEnc := fun k n a pt => pt ++ k ++ n ++ a
  aeadDec := fun k n a ct =>
    let t := k ++ n ++ a
    if t.length ≤ ct.length && ct.drop (ct.length - t.length) == t then
      some (ct.take (ct.length - t.length))
    else none
  randomKey := fun n => List.replicate n 0

/-! ## Filesystem and wrapper lemmas -/

theorem FS.lookup_remove_ne (p q : FPath) (fs : FS) (h : q ≠ p) :
    FS.lookup q (FS.remove p fs) = FS.lookup q fs := by
  induction fs with
  | nil => rfl
  | cons hd t ih =>
    obtain ⟨r, v⟩ := hd
    by_cases hr : r = p
    · have hrq : ¬ (r = q) := by
        rw [hr]
        exact fun hh => h hh.symm
      rw [show FS.remove p ((r, v) :: t) = FS.remove p t by simp [FS.remove, hr]]
      rw [ih]
      simp [FS.lookup, hrq]
    · rw [show FS.remove p ((r, v) :: t) = (r, v) :: FS.remove p t by simp [FS.remove, hr]]
      by_cases hq : r = q
      · simp [FS.lookup, hq]
      · simp [FS.lookup, hq, ih]

theorem FS.lookup_put_ne (p q : FPath) (v : Bytes) (fs : FS) (h : q ≠ p) :
    FS.lookup q (FS.put p v fs) = FS.lookup q fs := by
  have hpq : ¬ (p = q) := fun hh => h hh.symm
  simp only [FS.put, FS.lookup, if_neg hpq]
  exact FS.lookup_remove_ne p q fs h

theorem parseAlgId_encAlgId_nil (a : AlgId) : parseAlgId (encAlgId a) = some (a, []) := by
  have := parseAlgId_encAlgId a []
  simpa using this

/-- A successful encrypt run: guards pass, the message is assembled and
written to the output file. -/
theorem encryptR_ok (P : Prims) (fs : FS) (dataF outF : FPath) (pt : Bytes)
    (havail : P.aeadAvail = true) (hoid : P.oidOfStr P.aeadName ≠ [])
    (hin : FS.lookup dataF fs = some pt) (hne : dataF ≠ outF) :
    encryptR P true true dataF outF true fs
      = (.ok (encMessage P dataF pt),
         FS.put outF (encMessage P dataF pt) (FS.put outF [] fs)) := by
  unfold encryptR encryptRGen
  have hlook : FS.lookup dataF (FS.put outF [] fs) = some pt := by
    rw [FS.lookup_put_ne outF dataF [] fs hne]
    exact hin
  simp [havail, hoid, hlook, encMessage, encMessageWithEk]

/-- A decrypt run whose body succeeds writes the plaintext to the output. -/
theorem decryptR_ok (P : Prims) (fs : FS) (inF outF : FPath) (input pt : Bytes)
    (hlook : FS.lookup inF (FS.put outF [] fs) = some input)
    (hbody : decryptBody P input = .ok pt) :
    decryptR P true true inF outF true fs
      = (.ok pt, FS.put outF pt (FS.put outF [] fs)) := by
  unfold decryptR
  simp [hlook, hbody]

/-- A decrypt run whose body fails removes the output file and surfaces the
body's error. -/
theorem decryptR_error (P : Prims) (fs : FS) (inF outF : FPath) (input : Bytes) (e : Err)
    (hlook : FS.lookup inF (FS.put outF [] fs) = some input)
    (hbody : decryptBody P input = .error e) :
    decryptR P true true inF outF true fs
      = (.error e, FS.remove outF (FS.put outF [] fs)) := by
  unfold decryptR
  simp [hlook, hbody]

/-- Validation succeeds on the fields of a faithful encrypt run, under the
OID-registry consistency facts for the three configured algorithm names. -/
theorem validateH1_decodedH1 (P : Prims) (fname ek : Bytes)
    (hdf : fname ≠ []) (hsa : P.signAlgoName ≠ [])
    (hhn : P.hashName ≠ []) (han : P.aeadName ≠ [])
    (hreg1 : P.oid2str (P.oidOfStr (rsaSlash ++ P.paddingName)) = rsaSlash ++ P.paddingName)
    (hreg2 : P.oid2str (P.oidOfStr P.hashName) = P.hashName)
    (hreg3 : P.oid2str (P.oidOfStr P.aeadName) = P.aeadName) :
    validateH1 P (decodedH1 P fname ek) = .ok () := by
  simp [validateH1, decodedH1, pkAlgIdOf, hreg1, hreg2, hreg3, hdf, hsa, hhn, han,
    parseAlgId_encAlgId_nil]

/-- The decrypt body recovers the plaintext from a faithful encrypt run's
message. -/
theorem decryptBody_encMessage (P : Prims) (dataF pt : Bytes)
    (hdf : dataF ≠ []) (hmag : P.magic ≠ [])
    (hsa : P.signAlgoName ≠ []) (hhn : P.hashName ≠ []) (han : P.aeadName ≠ [])
    (hsz : (encodeHeader1With P dataF (P.wrap P.fileKey) (List.replicate 4 0)).length
            < 4294967296)
    (hreg1 : P.oid2str (P.oidOfStr (rsaSlash ++ P.paddingName)) = rsaSlash ++ P.paddingName)
    (hreg2 : P.oid2str (P.oidOfStr P.hashName) = P.hashName)
    (hreg3 : P.oid2str (P.oidOfStr P.aeadName) = P.aeadName)
    (havail : P.aeadAvail = true)
    (hkl : P.fileKey.length = P.maxKeylen)
    (hunwrap : P.unwrap (P.wrap P.fileKey) = some P.fileKey)
    (hver : P.verify (P.sign (encodeHeader1 P dataF (P.wrap P.fileKey)))
              (encodeHeader1 P dataF (P.wrap P.fileKey)) = true)
    (hdec : P.aeadDec P.fileKey P.nonceV (P.wrap P.fileKey)
              (P.aeadEnc P.fileKey P.nonceV (P.wrap P.fileKey) pt) = some pt) :
    decryptBody P (encMessage P dataF pt) = .ok pt := by
  unfold decryptBody
  rw [show encMessage P dataF pt = encMessageWithEk P dataF (P.wrap P.fileKey) pt from rfl]
  rw [decryptParse_encMessageWithEk P dataF (P.wrap P.fileKey) pt hmag hsz hver]
  have hval := validateH1_decodedH1 P dataF (P.wrap P.fileKey) hdf hsa hhn han hreg1 hreg2 hreg3
  have hek : (decodedH1 P dataF (P.wrap P.fileKey)).ek = P.wrap P.fileKey := rfl
  have hnn : (decodedH1 P dataF (P.wrap P.fileKey)).nonce = P.nonceV := rfl
  simp [hval, havail, hek, hnn, decryptOrRandom, hunwrap, hkl, hdec]

/-! ## C1 — encrypt/decrypt round trip -/

/-- **C1**: For every plaintext byte sequence and every valid
encryption/signing key pair, running the encrypt pipeline
(`encryptThenSign_RSA1`) and then the decrypt pipeline
(`checkSignThenDecrypt_RSA1`) on its output produces a byte sequence
identical to the original plaintext, and the decoded on-wire
`data_filename`, `payload_version` and `payload_version_parent` equal the
values written at encode time (the input file name, `1` and `0`).  The
validity of the key pair and of the primitive library is expressed by the
standard contracts at the values this run uses: unwrap inverts wrap,
verification accepts the produced signature, AEAD decryption inverts AEAD
encryption, the OID registry is consistent for the three configured
algorithm names, and the configured names, magic and input file name are
non-empty. -/
theorem C1_roundtrip
    (P : Prims) (fs : FS) (dataF outF outF2 : FPath) (pt : Bytes)
    (hin : FS.lookup dataF fs = some pt)
    (hdf : dataF ≠ []) (hmag : P.magic ≠ [])
    (hsa : P.signAlgoName ≠ []) (hhn : P.hashName ≠ []) (han : P.aeadName ≠ [])
    (hsz : (encodeHeader1With P dataF (P.wrap P.fileKey) (List.replicate 4 0)).length
            < 4294967296)
    (hreg1 : P.oid2str (P.oidOfStr (rsaSlash ++ P.paddingName)) = rsaSlash ++ P.paddingName)
    (hreg2 : P.oid2str (P.oidOfStr P.hashName) = P.hashName)
    (hreg3 : P.oid2str (P.oidOfStr P.aeadName) = P.aeadName)
    (hoid : P.oidOfStr P.aeadName ≠ [])
    (havail : P.aeadAvail = true)
    (hkl : P.fileKey.length = P.maxKeylen)
    (hunwrap : P.unwrap (P.wrap P.fileKey) = some P.fileKey)
    (hver : P.verify (P.sign (encodeHeader1 P dataF (P.wrap P.fileKey)))
              (encodeHeader1 P dataF (P.wrap P.fileKey)) = true)
    (hdec : P.aeadDec P.fileKey P.nonceV (P.wrap P.fileKey)
              (P.aeadEnc P.fileKey P.nonceV (P.wrap P.fileKey) pt) = some pt)
    (hne1 : dataF ≠ outF) (hne2 : outF ≠ outF2) :
    (encryptR P true true dataF outF true fs).1 = .ok (encMessage P dataF pt) ∧
    FS.lookup outF (encryptR P true true dataF outF true fs).2
      = some (encMessage P dataF pt) ∧
    decryptParse P (encMessage P dataF pt)
      = .ok (decodedH1 P dataF (P.wrap P.fileKey),
             encodeHeader1 P dataF (P.wrap P.fileKey),
             P.sign (encodeHeader1 P dataF (P.wrap P.fileKey)),
             P.aeadEnc P.fileKey P.nonceV (P.wrap P.fileKey) pt) ∧
    (decodedH1 P dataF (P.wrap P.fileKey)).filename = dataF ∧
    (decodedH1 P dataF (P.wrap P.fileKey)).payloadVersion = 1 ∧
    (decodedH1 P dataF (P.wrap P.fileKey)).payloadVersionParent = 0 ∧
    (decryptR P true true outF outF2 true
        (encryptR P true true dataF outF true fs).2).1 = .ok pt ∧
    FS.lookup outF2 (decryptR P true true outF outF2 true
        (encryptR P true true dataF outF true fs).2).2 = some pt := by
  have henc := encryptR_ok P fs dataF outF pt havail hoid hin hne1
  have hbody := decryptBody_encMessage P dataF pt hdf hmag hsa hhn han hsz
    hreg1 hreg2 hreg3 havail hkl hunwrap hver hdec
  have hlook2 : FS.lookup outF
      (FS.put outF2 [] (FS.put outF (encMessage P dataF pt) (FS.put outF [] fs)))
      = some (encMessage P dataF pt) := by
    rw [FS.lookup_put_ne outF2 outF [] _ hne2]
    exact FS.lookup_put_self outF (encMessage P dataF pt) (FS.put outF [] fs)
  have hdecR := decryptR_ok P (FS.put outF (encMessage P dataF pt) (FS.put outF [] fs))
    outF outF2 (encMessage P dataF pt) pt hlook2 hbody
  refine ⟨?_, ?_, ?_, rfl, rfl, rfl, ?_, ?_⟩
  · rw [henc]
  · rw [henc]
    exact FS.lookup_put_self outF (encMessage P dataF pt) (FS.put outF [] fs)
  · exact decryptParse_encMessageWithEk P dataF (P.wrap P.fileKey) pt hmag hsz hver
  · rw [henc]
    rw [hdecR]
  · rw [henc]
    rw [hdecR]
    exact FS.lookup_put_self outF2 pt _

/-- Witness for C1 at a concrete filesystem, plaintext and primitive bundle:
the decrypted output file holds the original plaintext. -/
theorem C1_roundtrip_witness :
    (decryptR toyP true true [111] [112] true
        (encryptR toyP true true [100] [111] true [([100], [5])]).2).1 = .ok [5] ∧
    FS.lookup [112] (decryptR toyP true true [111] [112] true
        (encryptR toyP true true [100] [111] true [([100], [5])]).2).2 = some [5] := by
  have h := C1_roundtrip toyP [([100], [5])] [100] [111] [112] [5]
    (by decide) (by decide) (by decide) (by decide) (by decide) (by decide)
    (by decide) (by decide) (by decide) (by decide) (by decide) (by decide)
    (by decide) (by decide) (by decide) (by decide) (by decide) (by decide)
  exact ⟨h.2.2.2.2.2.2.1, h.2.2.2.2.2.2.2⟩

/-! ## C2 — cleanup on failure -/

/-- `Prims` bundle whose AEAD is not registered
(`AEAD_Mode::create` returns null at encrypt time). -/
def noAeadP : Prims := { toyP with aeadAvail := false }

/-- `Prims` bundle whose OID registry has no OID for the AEAD name
(`OID::from_string` yields an empty OID). -/
def noOidP : Prims := { toyP with oidOfStr := fun _ => [] }

/-- **C2**: the claim states that every error path occurring after the
output file was opened — including key-load failure, AEAD-algorithm
unavailability and missing cipher OID — returns false with the output path
removed.  The code violates this: on exactly those paths it returns early
without `IOUtil::remove(outfilename)` (encrypt lines 48-65, decrypt lines
235-241), leaving the freshly created empty output file on disk.  This
theorem evaluates the pipelines at such failing inputs: each run returns
the error, and the final filesystem still contains the (empty) output
file. -/
theorem C2_error_paths_leave_output :
    (encryptR toyP false true [100] [111] true []).1 = .error .KeyLoad ∧
    (encryptR toyP false true [100] [111] true []).2 = [([111], [])] ∧
    (decryptR toyP false true [100] [111] true []).1 = .error .KeyLoad ∧
    (decryptR toyP false true [100] [111] true []).2 = [([111], [])] ∧
    (encryptR noAeadP true true [100] [111] true []).1 = .error .AeadUnavailable ∧
    (encryptR noAeadP true true [100] [111] true []).2 = [([111], [])] ∧
    (encryptR noOidP true true [100] [111] true []).1 = .error .OidMissing ∧
    (encryptR noOidP true true [100] [111] true []).2 = [([111], [])] ∧
    FS.fileExists ([111] : FPath) ([([111], [])] : FS) = true := by
  decide

/-! ## C3 — the two-pass header size comparison -/

/-- A header encoder whose pass-2 output length differs from its pass-1
output length: pass 1 (zeroed size buffer) yields one byte, pass 2 yields
two.  Exhibits that the pipeline's result does not depend on any comparison
of the two lengths. -/
def badHdrEnc : Bytes → Bytes :=
  fun szb => if szb = List.replicate 4 0 then [0] else [0, 0]

/-- **C3** (counterexample): the claim states that after re-encoding, the
encoder compares the second encoding's length L2 against the measured L1 and
fails the encrypt operation with `HeaderSizeMismatch` whenever they differ.
With an encoder for which L2 ≠ L1, the encrypt pipeline still succeeds: the
code contains no such comparison and no `HeaderSizeMismatch` failure site
(Crypto1.cpp lines 106-128 write the pass-2 buffer unconditionally). -/
theorem C3_counterexample :
    (badHdrEnc (putU32LE (badHdrEnc (List.replicate 4 0)).length)).length
        ≠ (badHdrEnc (List.replicate 4 0)).length ∧
    (encryptRGen toyP badHdrEnc true true [100] [111] true [([100], [5])]).1
        ≠ .error .HeaderSizeMismatch ∧
    (encryptRGen toyP badHdrEnc true true [100] [111] true [([100], [5])]).1
        = .ok (twoPassEncode badHdrEnc
            ++ encodeHeader2 (toyP.sign (twoPassEncode badHdrEnc))
            ++ toyP.aeadEnc toyP.fileKey toyP.nonceV (toyP.wrap toyP.fileKey) [5]) := by
  refine ⟨by decide, by decide, by decide⟩

/-- **C3** (amended): the encoder writes the measured pass-1 length L1 into
the 4-byte little-endian size field and re-encodes, and writes the second
encoding unconditionally — it performs no L2 = L1 comparison and has no
`HeaderSizeMismatch` failure path, for any header encoder; for the DER
encoder the code uses, L2 = L1 holds by construction (only the 4 bytes of
the fixed-length OCTET STRING value change between the passes). -/
theorem C3_no_size_check_but_fixed_point :
    (∀ (P : Prims) (hdrEnc : Bytes → Bytes) (encKeyOk signKeyOk : Bool)
        (dataF outF : FPath) (overwrite : Bool) (fs : FS),
      (encryptRGen P hdrEnc encKeyOk signKeyOk dataF outF overwrite fs).1
        ≠ .error .HeaderSizeMismatch) ∧
    (∀ (P : Prims) (fname ek : Bytes),
      (encodeHeader1 P fname ek).length
        = (encodeHeader1With P fname ek (List.replicate 4 0)).length) := by
  constructor
  · intro P hdrEnc encKeyOk signKeyOk dataF outF overwrite fs
    unfold encryptRGen
    split
    · simp
    · split
      · simp
      · split
        · simp
        · split
          · simp
          · split
            · simp
            · cases h : FS.lookup dataF (FS.put outF [] fs) <;> simp [h]
  · intro P fname ek
    exact encodeHeader1_length P fname ek

/-! ## C7 — overwrite guard -/

/-- **C7**: for every encrypt or decrypt invocation whose output path names
an existing file while `overwrite = false`, the operation fails with the
output-exists error and returns the filesystem unchanged — in particular
every byte of the existing file is untouched. -/
theorem C7_overwrite_guard (P : Prims) (encKeyOk signKeyOk signKeyOk2 decKeyOk : Bool)
    (dataF outF : FPath) (fs : FS)
    (hex : FS.fileExists outF fs = true) :
    encryptR P encKeyOk signKeyOk dataF outF false fs = (.error .OutputExists, fs) ∧
    decryptR P signKeyOk2 decKeyOk dataF outF false fs = (.error .OutputExists, fs) := by
  constructor
  · unfold encryptR encryptRGen
    simp [hex]
  · unfold decryptR
    simp [hex]

/-- Witness for C7: an existing one-byte output file is left untouched. -/
theorem C7_overwrite_guard_witness :
    encryptR toyP true true [100] [111] false [([111], [3])]
      = (.error .OutputExists, [([111], [3])]) ∧
    decryptR toyP true true [100] [111] false [([111], [3])]
      = (.error .OutputExists, [([111], [3])]) :=
  C7_overwrite_guard toyP true true true true [100] [111] [([111], [3])] (by decide)

/-! ## C10 — empty `data_filename` is fatal -/

/-- **C10**: for every input message whose decoded Header-1 `data_filename`
is the empty octet string, the decrypt operation fails: the body yields the
empty-filename error (Crypto1.cpp lines 356-364), and the run removes the
output file and returns false. -/
theorem C10_empty_filename_fatal (P : Prims) (input : Bytes) (h1 : H1)
    (himg sig ct : Bytes) (inF outF : FPath) (fs : FS)
    (hp : decryptParse P input = .ok (h1, himg, sig, ct))
    (hf : h1.filename = [])
    (hlook : FS.lookup inF (FS.put outF [] fs) = some input) :
    decryptBody P input = .error .EmptyFilename ∧
    decryptR P true true inF outF true fs
      = (.error .EmptyFilename, FS.remove outF (FS.put outF [] fs)) := by
  have hb : decryptBody P input = .error .EmptyFilename := by
    unfold decryptBody
    rw [hp]
    simp [validateH1, hf]
  exact ⟨hb, decryptR_error P fs inF outF input _ hlook hb⟩

/-- Witness for C10: a well-formed message carrying an empty filename (all
other header fields valid, signature correct) is rejected and the output
removed. -/
theorem C10_empty_filename_witness :
    decryptBody toyP (encMessage toyP [] [5]) = .error .EmptyFilename ∧
    decryptR toyP true true [87] [88] true [([87], encMessage toyP [] [5])]
      = (.error .EmptyFilename,
         FS.remove [88] (FS.put [88] [] [([87], encMessage toyP [] [5])])) :=
  C10_empty_filename_fatal toyP (encMessage toyP [] [5])
    (decodedH1 toyP [] (toyP.wrap toyP.fileKey))
    (encodeHeader1 toyP [] (toyP.wrap toyP.fileKey))
    (toyP.sign (encodeHeader1 toyP [] (toyP.wrap toyP.fileKey)))
    (toyP.aeadEnc toyP.fileKey toyP.nonceV (toyP.wrap toyP.fileKey) [5])
    [87] [88] [([87], encMessage toyP [] [5])]
    (decryptParse_encMessageWithEk toyP [] (toyP.wrap toyP.fileKey) [5]
      (by decide) (by decide) (by decide))
    rfl (by decide)

/-! ## C5 — `decrypt_or_random` masks key-unwrap failure as `TagMismatch` -/

/-- **C5**: for every decrypt run in which the asymmetric unwrap of
`encrypted_key` fails, a random key of the expected AEAD maximum key length
is substituted and the operation proceeds; the failure then surfaces at AEAD
tag verification as `TagMismatch` (given that the substituted random key
does not authenticate the payload), not as a key-unwrap-specific error. -/
theorem C5_decrypt_or_random (P : Prims) (input : Bytes) (h1 : H1)
    (himg sig ct : Bytes) (inF outF : FPath) (fs : FS)
    (hp : decryptParse P input = .ok (h1, himg, sig, ct))
    (hv : validateH1 P h1 = .ok ())
    (ha : P.aeadAvail = true)
    (hu : P.unwrap h1.ek = none)
    (hrl : (P.randomKey P.maxKeylen).length = P.maxKeylen)
    (hd : P.aeadDec (P.randomKey P.maxKeylen) h1.nonce h1.ek ct = none)
    (hlook : FS.lookup inF (FS.put outF [] fs) = some input) :
    decryptOrRandom P h1.ek = P.randomKey P.maxKeylen ∧
    (decryptOrRandom P h1.ek).length = P.maxKeylen ∧
    decryptBody P input = .error .TagMismatch ∧
    decryptR P true true inF outF true fs
      = (.error .TagMismatch, FS.remove outF (FS.put outF [] fs)) := by
  have h0 : decryptOrRandom P h1.ek = P.randomKey P.maxKeylen := by
    simp [decryptOrRandom, hu]
  have hb : decryptBody P input = .error .TagMismatch := by
    unfold decryptBody
    rw [hp]
    simp [hv, ha, h0, hd]
  exact ⟨h0, by rw [h0]; exact hrl, hb,
    decryptR_error P fs inF outF input _ hlook hb⟩

/-- `Prims` bundle modelling decryption with a private key that does not
match the public key used at encrypt time: every unwrap fails. -/
def toyBad : Prims := { toyP with unwrap := fun _ => none }

/-- Witness for C5: decrypting a faithfully produced message with a
non-matching private key yields `TagMismatch` and removes the output. -/
theorem C5_decrypt_or_random_witness :
    decryptBody toyBad (encMessage toyBad [100] [5]) = .error .TagMismatch ∧
    decryptR toyBad true true [87] [88] true [([87], encMessage toyBad [100] [5])]
      = (.error .TagMismatch,
         FS.remove [88] (FS.put [88] [] [([87], encMessage toyBad [100] [5])])) := by
  have h := C5_decrypt_or_random toyBad (encMessage toyBad [100] [5])
    (decodedH1 toyBad [100] (toyBad.wrap toyBad.fileKey))
    (encodeHeader1 toyBad [100] (toyBad.wrap toyBad.fileKey))
    (toyBad.sign (encodeHeader1 toyBad [100] (toyBad.wrap toyBad.fileKey)))
    (toyBad.aeadEnc toyBad.fileKey toyBad.nonceV (toyBad.wrap toyBad.fileKey) [5])
    [87] [88] [([87], encMessage toyBad [100] [5])]
    (decryptParse_encMessageWithEk toyBad [100] (toyBad.wrap toyBad.fileKey) [5]
      (by decide) (by decide) (by decide))
    (by decide) (by decide) (by decide) (by decide) (by decide) (by decide)
  exact ⟨h.2.2.1, h.2.2.2⟩

/-! ## C6 — signature over the exact Header-1 image; single-bit tampering -/

/-- Inversion of a successful header phase: the verified image is the exact
prefix of the input named by the size field, and verification succeeded on
it. -/
theorem decryptParse_ok_inv (P : Prims) (input : Bytes) (h1 : H1) (himg sig ct : Bytes)
    (hp : decryptParse P input = .ok (h1, himg, sig, ct)) :
    P.verify sig himg = true ∧ himg = input.take himg.length ∧ himg.length ≤ input.length := by
  unfold decryptParse at hp
  split at hp
  · exact absurd hp (by simp)
  · split at hp
    · exact absurd hp (by simp)
    · split at hp
      · exact absurd hp (by simp)
      · split at hp
        · exact absurd hp (by simp)
        · rename_i m szb hsn hm0 hmm hs4
          split at hp
          · exact absurd hp (by simp)
          · rename_i hshort
            split at hp
            · exact absurd hp (by simp)
            · split at hp
              · exact absurd hp (by simp)
              · rename_i h1x hph1 sigct sigx ctx hph2
                split at hp
                · rename_i hver
                  simp only [Except.ok.injEq, Prod.mk.injEq] at hp
                  obtain ⟨hh1, hhimg, hsig, hct⟩ := hp
                  have hle : getU32LE szb ≤ input.length := by omega
                  have hlen : himg.length = getU32LE szb := by
                    rw [← hhimg]
                    exact List.length_take_of_le hle
                  refine ⟨?_, ?_, ?_⟩
                  · rw [← hsig, ← hhimg]
                    exact hver
                  · rw [hlen]
                    exact hhimg.symm
                  · rw [hlen]
                    exact hle
                · exact absurd hp (by simp)

/-- **C6** (amended): the decrypt pipeline verifies the Header-2 signature
over the exact Header-1 byte sequence read from the input (not a
re-serialization), and every single-byte (in particular single-bit)
modification within the Header-1 byte image, with Header-2 unmodified,
makes the header phase — and hence the operation — fail before the payload
stage is reached: with `SignatureMismatch` when the modified image still
parses and passes the magic/size validation, and with the corresponding
earlier decode or validation error otherwise.  (Payload output is written
only after the header phase returns successfully, so no payload output is
written on these runs.)  The idealised unforgeability of the signature
scheme for this run is the hypothesis that verification accepts no byte
sequence other than the originally signed image. -/
theorem C6_sig_over_exact_image (P : Prims) (input : Bytes) (h1 : H1)
    (himg sig ct : Bytes)
    (hp : decryptParse P input = .ok (h1, himg, sig, ct)) :
    himg = input.take himg.length ∧
    P.verify sig himg = true ∧
    ∀ (i b : Nat),
      (∀ s m, m ≠ himg → P.verify s m = false) →
      i < himg.length →
      input[i]? ≠ some b →
      ∃ e, decryptParse P (input.set i b) = .error e ∧
           decryptBody P (input.set i b) = .error e := by
  obtain ⟨hver, hhimg, hle⟩ := decryptParse_ok_inv P input h1 himg sig ct hp
  refine ⟨hhimg, hver, ?_⟩
  intro i b hforge hi hb
  cases hcase : decryptParse P (input.set i b) with
  | error e =>
    refine ⟨e, rfl, ?_⟩
    unfold decryptBody
    rw [hcase]
  | ok tup =>
    exfalso
    obtain ⟨h1x, himgx, sigx, ctx⟩ := tup
    obtain ⟨hverx, hhimgx, hlex⟩ :=
      decryptParse_ok_inv P (input.set i b) h1x himgx sigx ctx hcase
    have heq : himgx = himg := by
      by_contra hne
      rw [hforge sigx himgx hne] at hverx
      exact Bool.false_ne_true hverx
    have hiblt : i < input.length := lt_of_lt_of_le hi hle
    have hlt2 : i < himgx.length := by
      rw [heq]
      exact hi
    have h2 : himgx[i]? = some b := by
      conv_lhs => rw [hhimgx]
      rw [List.getElem?_take_of_lt hlt2]
      exact List.getElem?_set_self hiblt
    have h3 : himg[i]? = input[i]? := by
      conv_lhs => rw [hhimg]
      exact List.getElem?_take_of_lt hi
    rw [heq, h3] at h2
    exact hb h2

/-- The Header-1 byte image of a concrete encrypt run with the toy
primitives. -/
def cexImg : Bytes := encodeHeader1 toyP [100] (toyP.wrap toyP.fileKey)

/-- Toy primitives whose verifier accepts exactly the one signed image of
this run (idealised unforgeability for the concrete witness). -/
def sigOnlyP : Prims := { toyP with verify := fun _ m => m == cexImg }

set_option maxRecDepth 8000 in
/-- **C6** (counterexample to the claim as stated): byte 4 of the encoded
message is the first `package_magic` content byte (value 90); replacing it
by 91 — flipping bit 0 — is a single-bit modification strictly inside the
Header-1 byte image (the image is 57 bytes long), yet decrypt fails with
`BadMagic` from the snoop-phase magic validation, not with
`SignatureMismatch`. -/
theorem C6_counterexample :
    4 < (encodeHeader1 toyP [100] (toyP.wrap toyP.fileKey)).length ∧
    (encMessage toyP [100] [5])[4]? = some 90 ∧
    decryptParse toyP ((encMessage toyP [100] [5]).set 4 91) = .error .BadMagic ∧
    decryptBody toyP ((encMessage toyP [100] [5]).set 4 91) = .error .BadMagic ∧
    Err.BadMagic ≠ Err.SignatureMismatch := by
  decide

set_option maxRecDepth 8000 in
/-- Witness for the amended C6 at a concrete run: flipping bit 0 of the
first magic byte inside the Header-1 image makes the header phase fail. -/
theorem C6_sig_over_exact_image_witness :
    ∃ e, decryptParse sigOnlyP ((encMessage toyP [100] [5]).set 4 91) = .error e ∧
         decryptBody sigOnlyP ((encMessage toyP [100] [5]).set 4 91) = .error e := by
  have h := C6_sig_over_exact_image sigOnlyP (encMessage toyP [100] [5])
    (decodedH1 toyP [100] (toyP.wrap toyP.fileKey)) cexImg cexImg
    (toyP.aeadEnc toyP.fileKey toyP.nonceV (toyP.wrap toyP.fileKey) [5])
    (by decide)
  refine h.2.2 4 91 ?_ (by decide) (by decide)
  intro s m hm
  show (m == cexImg) = false
  rw [beq_eq_false_iff_ne]
  exact hm

/-! ## C8 — decrypt header validation: specific fatal errors -/

/-- **C8**: during decrypt header validation each listed condition is
checked, and any mismatch makes the operation fail fatally with a specific
error, removing the output and returning false: a `package_magic` different
from the expected magic fails with the magic error; a `sign_algo_name`
different from the compile-time signing algorithm fails with the
sign-algo error; a `pk_alg_id` not resolving to `RSA/<padding>` fails with
the pk-algo error; a nested hash algorithm identifier not resolving to the
expected hash fails with the hash errors, and non-empty hash parameters
with the hash-parameter error; a `cipher_algo_oid` not resolving to the
expected AEAD name fails with the cipher-algo error.  The final conjunct
propagates any validation error through the full run: output removed,
operation failed. -/
theorem C8_header_validation :
    (∀ (P : Prims) (input : Bytes) (m szb : Bytes),
      snoop input = some (m, szb) → m ≠ [] → m ≠ P.magic →
      decryptBody P input = .error .BadMagic ∧
      decryptParse P input = .error .BadMagic) ∧
    (∀ (P : Prims) (h1 : H1),
      h1.filename ≠ [] → h1.signAlgo ≠ [] → h1.signAlgo ≠ P.signAlgoName →
      validateH1 P h1 = .error .SignAlgoMismatch) ∧
    (∀ (P : Prims) (h1 : H1),
      h1.filename ≠ [] → h1.signAlgo = P.signAlgoName → P.signAlgoName ≠ [] →
      P.oid2str h1.pkAlg.oid ≠ rsaSlash ++ P.paddingName →
      validateH1 P h1 = .error .PkAlgoMismatch) ∧
    (∀ (P : Prims) (h1 : H1) (hashId : AlgId) (rest : Bytes),
      h1.filename ≠ [] → h1.signAlgo = P.signAlgoName → P.signAlgoName ≠ [] →
      P.oid2str h1.pkAlg.oid = rsaSlash ++ P.paddingName →
      parseAlgId h1.pkAlg.params = some (hashId, rest) →
      P.oid2str hashId.oid ≠ [] → P.oid2str hashId.oid ≠ P.hashName →
      validateH1 P h1 = .error .HashAlgoMismatch) ∧
    (∀ (P : Prims) (h1 : H1) (hashId : AlgId) (rest : Bytes),
      h1.filename ≠ [] → h1.signAlgo = P.signAlgoName → P.signAlgoName ≠ [] →
      P.oid2str h1.pkAlg.oid = rsaSlash ++ P.paddingName →
      parseAlgId h1.pkAlg.params = some (hashId, rest) →
      P.oid2str hashId.oid = P.hashName → P.hashName ≠ [] →
      hashId.params ≠ [] →
      validateH1 P h1 = .error .HashParamNonEmpty) ∧
    (∀ (P : Prims) (h1 : H1) (hashId : AlgId) (rest : Bytes),
      h1.filename ≠ [] → h1.signAlgo = P.signAlgoName → P.signAlgoName ≠ [] →
      P.oid2str h1.pkAlg.oid = rsaSlash ++ P.paddingName →
      parseAlgId h1.pkAlg.params = some (hashId, rest) →
      P.oid2str hashId.oid = P.hashName → P.hashName ≠ [] →
      hashId.params = [] →
      P.oid2str h1.cipherOid ≠ [] → P.oid2str h1.cipherOid ≠ P.aeadName →
      validateH1 P h1 = .error .CipherAlgoMismatch) ∧
    (∀ (P : Prims) (input : Bytes) (h1 : H1) (himg sig ct : Bytes) (e : Err)
        (inF outF : FPath) (fs : FS),
      decryptParse P input = .ok (h1, himg, sig, ct) →
      validateH1 P h1 = .error e →
      FS.lookup inF (FS.put outF [] fs) = some input →
      decryptBody P input = .error e ∧
      decryptR P true true inF outF true fs
        = (.error e, FS.remove outF (FS.put outF [] fs))) := by
  refine ⟨?_, ?_, ?_, ?_, ?_, ?_, ?_⟩
  · intro P input m szb hsn hm0 hmm
    have hparse : decryptParse P input = .error .BadMagic := by
      unfold decryptParse
      rw [hsn]
      simp [hm0, hmm]
    refine ⟨?_, hparse⟩
    unfold decryptBody
    rw [hparse]
  · intro P h1 hf hs0 hsn
    simp [validateH1, hf, hs0, hsn]
  · intro P h1 hf hs0 hsn hpk
    simp [validateH1, hf, hs0, hsn, hpk]
  · intro P h1 hashId rest hf hs0 hsn hpk hpa hh0 hhm
    simp [validateH1, hf, hs0, hsn, hpk, hpa, hh0, hhm]
  · intro P h1 hashId rest hf hs0 hsn hpk hpa hhm hh0 hpp
    simp [validateH1, hf, hs0, hsn, hpk, hpa, hhm, hh0, hpp]
  · intro P h1 hashId rest hf hs0 hsn hpk hpa hhm hh0 hpp hc0 hcm
    simp [validateH1, hf, hs0, hsn, hpk, hpa, hhm, hh0, hpp, hc0, hcm]
  · intro P input h1 himg sig ct e inF outF fs hp hvE hlook
    have hb : decryptBody P input = .error e := by
      unfold decryptBody
      rw [hp]
      simp [hvE]
    exact ⟨hb, decryptR_error P fs inF outF input e hlook hb⟩

/-! ## C9 — AEAD associated data is the wrapped key -/

/-- **C9**: in both pipelines the AEAD is keyed and started with the raw
`encrypted_key` octet string contents as associated data before the payload
is processed: the encrypt pipeline's payload section is exactly
`aeadEnc file_key nonce (wrap file_key) payload` (second argument after the
nonce is the associated data), the decrypt body's payload stage is exactly
AEAD decryption with the decoded `encrypted_key` as associated data, and —
third conjunct — a message whose header carries an altered `encrypted_key`
while the payload was authenticated under the original wrapped key fails at
tag verification with `TagMismatch`, under the assumption that the AEAD
rejects the mismatched associated data (the AEAD integrity contract). -/
theorem C9_aad_binding :
    (∀ (P : Prims) (fs : FS) (dataF outF : FPath) (pt : Bytes),
      P.aeadAvail = true → P.oidOfStr P.aeadName ≠ [] →
      FS.lookup dataF fs = some pt → dataF ≠ outF →
      (encryptR P true true dataF outF true fs).1
        = .ok (encodeHeader1 P dataF (P.wrap P.fileKey)
            ++ encodeHeader2 (P.sign (encodeHeader1 P dataF (P.wrap P.fileKey)))
            ++ P.aeadEnc P.fileKey P.nonceV (P.wrap P.fileKey) pt)) ∧
    (∀ (P : Prims) (input : Bytes) (h1 : H1) (himg sig ct : Bytes),
      decryptParse P input = .ok (h1, himg, sig, ct) →
      validateH1 P h1 = .ok () →
      P.aeadAvail = true →
      decryptBody P input
        = match P.aeadDec (decryptOrRandom P h1.ek) h1.nonce h1.ek ct with
          | none => .error .TagMismatch
          | some pt2 => .ok pt2) ∧
    (∀ (P : Prims) (dataF pt ek2 : Bytes),
      dataF ≠ [] → P.magic ≠ [] →
      P.signAlgoName ≠ [] → P.hashName ≠ [] → P.aeadName ≠ [] →
      (encodeHeader1With P dataF ek2 (List.replicate 4 0)).length < 4294967296 →
      P.oid2str (P.oidOfStr (rsaSlash ++ P.paddingName)) = rsaSlash ++ P.paddingName →
      P.oid2str (P.oidOfStr P.hashName) = P.hashName →
      P.oid2str (P.oidOfStr P.aeadName) = P.aeadName →
      P.aeadAvail = true →
      P.verify (P.sign (encodeHeader1 P dataF ek2)) (encodeHeader1 P dataF ek2) = true →
      P.aeadDec (decryptOrRandom P ek2) P.nonceV ek2
        (P.aeadEnc P.fileKey P.nonceV (P.wrap P.fileKey) pt) = none →
      decryptBody P (encMessageWithEk P dataF ek2 pt) = .error .TagMismatch) := by
  refine ⟨?_, ?_, ?_⟩
  · intro P fs dataF outF pt havail hoid hin hne
    rw [encryptR_ok P fs dataF outF pt havail hoid hin hne]
    rfl
  · intro P input h1 himg sig ct hp hv ha
    unfold decryptBody
    rw [hp]
    simp [hv, ha]
  · intro P dataF pt ek2 hdf hmag hsa hhn han hsz hreg1 hreg2 hreg3 havail hver hd
    unfold decryptBody
    rw [decryptParse_encMessageWithEk P dataF ek2 pt hmag hsz hver]
    have hval := validateH1_decodedH1 P dataF ek2 hdf hsa hhn han hreg1 hreg2 hreg3
    have hek : (decodedH1 P dataF ek2).ek = ek2 := rfl
    have hnn : (decodedH1 P dataF ek2).nonce = P.nonceV := rfl
    simp [hval, havail, hek, hnn, hd]

set_option maxRecDepth 8000 in
/-- Witness for C9 at a concrete run: the encrypt output carries the wrapped
key as AEAD associated data, and substituting a different (valid-length,
unwrappable) `encrypted_key` into the header of an otherwise well-signed
message makes decrypt fail with `TagMismatch`. -/
theorem C9_aad_binding_witness :
    (encryptR toyP true true [100] [111] true [([100], [5])]).1
      = .ok (encodeHeader1 toyP [100] (toyP.wrap toyP.fileKey)
          ++ encodeHeader2 (toyP.sign (encodeHeader1 toyP [100] (toyP.wrap toyP.fileKey)))
          ++ toyP.aeadEnc toyP.fileKey toyP.nonceV (toyP.wrap toyP.fileKey) [5]) ∧
    decryptBody toyP (encMessageWithEk toyP [100] [9, 7, 7, 9] [5])
      = .error .TagMismatch := by
  refine ⟨C9_aad_binding.1 toyP [([100], [5])] [100] [111] [5]
      (by decide) (by decide) (by decide) (by decide),
    C9_aad_binding.2.2 toyP [100] [5] [9, 7, 7, 9]
      (by decide) (by decide) (by decide) (by decide) (by decide) (by decide)
      (by decide) (by decide) (by decide) (by decide) (by decide) (by decide)⟩

/-! ## C4 — listener callback ordering (modelled from the spec) -/

/-- Listener events surfaced to a `CipherpackListener`
(`notifyHeader`, `notifyProgress`, `notifyEnd`, `notifyError`). -/
inductive LEvent
  | header
  | progress
  | endEv (success : Bool)
  | errorEv
deriving DecidableEq

/-- Modelled from the spec: the core under `src/` (`Crypto1.cpp`) contains
no listener dispatch; the `CipherpackListener` surface is declared by the
JNI binding (`CipherpackListener.cxx`: `notifyError`, `notifyHeader`,
`notifyProgress`, `notifyEnd`, `getSendContent`, `contentProcessed`), and
the pipeline driving it is not among the sources.  This models the payload
streaming phase of spec sections 4.5-4.7: one `notifyProgress` per
successfully processed chunk (an entry `true` in `chunks`), abort inside a
chunk (entry `false`, covering write failure and `contentProcessed`
returning false) or at finalization (`finalOk = false`, covering
`TagMismatch`) emits `notifyError` then `notifyEnd(success=false)`;
successful finalization emits `notifyEnd(success=true)`. -/
def payloadEvents : List Bool → Bool → List LEvent
  | [], finalOk => if finalOk then [.endEv true] else [.errorEv, .endEv false]
  | c :: rest, finalOk =>
    if c then .progress :: payloadEvents rest finalOk
    else [.errorEv, .endEv false]

/-- Modelled from the spec: the event trace of one encrypt or decrypt
operation with an attached listener (spec sections 4.5-4.7).  A failure in
the setup/header phase (`setupOk = false`) emits `notifyError` then
`notifyEnd(success=false)`; otherwise `notifyHeader` is emitted once after
the header is settled, followed by the payload phase. -/
def pipelineEvents (setupOk : Bool) (chunks : List Bool) (finalOk : Bool) : List LEvent :=
  if setupOk then .header :: payloadEvents chunks finalOk
  else [.errorEv, .endEv false]

theorem payloadEvents_all_ok :
    ∀ (chunks : List Bool), chunks.all id = true →
      payloadEvents chunks true
        = List.replicate chunks.length .progress ++ [.endEv true] := by
  intro chunks
  induction chunks with
  | nil => intro _; rfl
  | cons c rest ih =>
    intro hall
    simp only [List.all_cons, Bool.and_eq_true, id] at hall
    rw [payloadEvents, if_pos hall.1, ih hall.2]
    simp [List.replicate_succ]

theorem payloadEvents_failure :
    ∀ (chunks : List Bool) (finalOk : Bool),
      (chunks.all id = false ∨ finalOk = false) →
      ∃ pre, payloadEvents chunks finalOk = pre ++ [.errorEv, .endEv false] ∧
        LEvent.errorEv ∉ pre ∧ ∀ b, LEvent.endEv b ∉ pre := by
  intro chunks
  induction chunks with
  | nil =>
    intro finalOk hfail
    have hfo : finalOk = false := by
      rcases hfail with h | h
      · simp at h
      · exact h
    exact ⟨[], by simp [payloadEvents, hfo], by simp, by simp⟩
  | cons c rest ih =>
    intro finalOk hfail
    by_cases hc : c = true
    · have hfail2 : rest.all id = false ∨ finalOk = false := by
        rcases hfail with h | h
        · left
          simpa [hc] using h
        · right
          exact h
      obtain ⟨pre, hpre, hne, hnd⟩ := ih finalOk hfail2
      refine ⟨.progress :: pre, ?_, ?_, ?_⟩
      · rw [payloadEvents, if_pos hc, hpre]
        rfl
      · simp [hne]
      · intro b
        simp [hnd b]
    · have hc2 : c = false := by
        cases c
        · rfl
        · exact absurd rfl hc
      refine ⟨[], ?_, by simp, by simp⟩
      rw [payloadEvents, hc2]
      rfl

/-- **C4**: for every encrypt or decrypt operation with an attached
listener, on success the callbacks occur in the order `notifyHeader`
exactly once, then `notifyProgress` zero or more times (once per payload
chunk), then `notifyEnd(success=true)` exactly once; on any failure,
`notifyError` occurs exactly once, directly followed by
`notifyEnd(success=false)` exactly once as the final two events (no error
or end event occurs before them). -/
theorem C4_listener_order (setupOk : Bool) (chunks : List Bool) (finalOk : Bool) :
    ((setupOk = true ∧ chunks.all id = true ∧ finalOk = true) →
      pipelineEvents setupOk chunks finalOk
        = .header :: (List.replicate chunks.length .progress ++ [.endEv true])) ∧
    ((setupOk = false ∨ chunks.all id = false ∨ finalOk = false) →
      ∃ pre, pipelineEvents setupOk chunks finalOk = pre ++ [.errorEv, .endEv false] ∧
        LEvent.errorEv ∉ pre ∧ ∀ b, LEvent.endEv b ∉ pre) := by
  constructor
  · rintro ⟨hs, hall, hfo⟩
    rw [pipelineEvents, if_pos hs, hfo, payloadEvents_all_ok chunks hall]
  · intro hfail
    by_cases hs : setupOk = true
    · have hfail2 : chunks.all id = false ∨ finalOk = false := by
        rcases hfail with h | h | h
        · rw [hs] at h
          exact absurd h (by simp)
        · left
          exact h
        · right
          exact h
      obtain ⟨pre, hpre, hne, hnd⟩ := payloadEvents_failure chunks finalOk hfail2
      refine ⟨.header :: pre, ?_, ?_, ?_⟩
      · rw [pipelineEvents, if_pos hs, hpre]
        rfl
      · simp [hne]
      · intro b
        simp [hnd b]
    · refine ⟨[], ?_, by simp, by simp⟩
      rw [pipelineEvents, if_neg hs]
      rfl

/-- Witness for C4: a successful two-chunk operation and an operation
failing at finalization. -/
theorem C4_listener_order_witness :
    pipelineEvents true [true, true] true
      = .header :: (List.replicate 2 .progress ++ [.endEv true]) ∧
    (∃ pre, pipelineEvents true [true, true] false
        = pre ++ [.errorEv, .endEv false] ∧
      LEvent.errorEv ∉ pre ∧ ∀ b, LEvent.endEv b ∉ pre) :=
  ⟨(C4_listener_order true [true, true] true).1 (by decide),
   (C4_listener_order true [true, true] false).2 (by decide)⟩

/-- Toy primitives whose compile-time signing algorithm name differs from
the one a well-formed message carries: used to hit the sign-algo mismatch
path with an otherwise valid message. -/
def badSignP : Prims := { toyP with signAlgoName := [9] }

set_option maxRecDepth 8000 in
/-- Witness for C8 at concrete runs: a magic mismatch fails with the magic
error; a header carrying an unexpected signing algorithm name fails
validation with the sign-algo error, and the full run removes the output
and fails with that error. -/
theorem C8_header_validation_witness :
    decryptBody toyP ((encMessage toyP [100] [5]).set 4 91) = .error .BadMagic ∧
    validateH1 toyP
        { decodedH1 toyP [100] (toyP.wrap toyP.fileKey) with signAlgo := [9] }
      = .error .SignAlgoMismatch ∧
    decryptR toyP true true [87] [88] true [([87], encMessage badSignP [100] [5])]
      = (.error .SignAlgoMismatch,
         FS.remove [88] (FS.put [88] [] [([87], encMessage badSignP [100] [5])])) := by
  refine ⟨(C8_header_validation.1 toyP ((encMessage toyP [100] [5]).set 4 91)
      [91, 65, 70] [57, 0, 0, 0] (by decide) (by decide) (by decide)).1,
    C8_header_validation.2.1 toyP
      { decodedH1 toyP [100] (toyP.wrap toyP.fileKey) with signAlgo := [9] }
      (by decide) (by decide) (by decide),
    (C8_header_validation.2.2.2.2.2.2 toyP (encMessage badSignP [100] [5])
      (decodedH1 badSignP [100] (badSignP.wrap badSignP.fileKey))
      (encodeHeader1 badSignP [100] (badSignP.wrap badSignP.fileKey))
      (badSignP.sign (encodeHeader1 badSignP [100] (badSignP.wrap badSignP.fileKey)))
      (badSignP.aeadEnc badSignP.fileKey badSignP.nonceV
        (badSignP.wrap badSignP.fileKey) [5])
      .SignAlgoMismatch [87] [88] [([87], encMessage badSignP [100] [5])]
      (by decide) (by decide) (by decide)).2⟩
